import Mathlib

/-!
Verification of the DupDetector scan-and-deduplicate pipeline.

Shallow embedding of the core operations:
* `src/dupdetector/lib/hashing.py` — `_hex_to_bitstring`, `hamming_distance`,
  `cluster_by_hamming`;
* `src/dupdetector/services/repository.py` — `Repository.create_file`
  (duplicate classification and the unique-path IntegrityError path);
* `src/dupdetector/lib/db_lock.py` — `DatabaseLock.acquire` / `release`.

Python strings are embedded as `List Char` (hash strings) or `String`
(paths, lock names); the database is a list of rows in insertion order
(ids ascend, matching the autoincrement primary key, so SQLAlchemy's
`.first()` on an unordered query is the first row in insertion order).
-/

namespace DupDetector

/-! ## lib/hashing.py -/

/-- Value of one hex digit, `none` for a non-hex character. -/
def hexCharVal? (c : Char) : Option Nat :=
  if '0' ≤ c ∧ c ≤ '9' then some (c.toNat - '0'.toNat)
  else if 'a' ≤ c ∧ c ≤ 'f' then some (c.toNat - 'a'.toNat + 10)
  else if 'A' ≤ c ∧ c ≤ 'F' then some (c.toNat - 'A'.toNat + 10)
  else none

/-- Model of Python `int(hexstr, 16)` on plain strings of hex digits:
`none` models the `ValueError` branch (the source maps it to `""`).
(Python's `int` also accepts forms such as surrounding whitespace or a
sign; those never occur as stored hashes and are treated as failures.) -/
def hexStrToNat? (s : List Char) : Option Nat :=
  if s = [] then none
  else s.foldl (fun acc c => acc.bind (fun n => (hexCharVal? c).map (fun v => 16 * n + v)))
    (some 0)

/-- The low `bits` bits of `i`, most significant first: this is
`bin(i)[2:].rjust(bits, "0")[-bits:]` with `'1'`/`'0'` as `true`/`false`. -/
def natToBits (bits i : Nat) : List Bool :=
  (List.range bits).map (fun k => i.testBit (bits - 1 - k))

/-- `_hex_to_bitstring` from `lib/hashing.py`: convert a hex string to a
zero-padded bitstring, `[]` (the empty string) when parsing fails. -/
def hexToBitstring (hexstr : List Char) (bits : Nat := 64) : List Bool :=
  match hexStrToNat? hexstr with
  | none => []
  | some i => natToBits bits i

/-- `hamming_distance` from `lib/hashing.py`. -/
def hamming_distance (hex1 hex2 : List Char) (bits : Nat := 64) : Nat :=
  let b1 := hexToBitstring hex1 bits
  let b2 := hexToBitstring hex2 bits
  if b1 = [] ∨ b2 = [] then bits
  else ((b1.zip b2).filter (fun q => decide (q.1 ≠ q.2))).length

/-- Inner loop of `cluster_by_hamming`: scan the items after the seed and
absorb any unused id whose distance to the seed's hash is within the
threshold.  Returns the absorbed ids (in scan order) and the updated
`used` list. -/
def clusterInner (p_i : List Char) (rest : List (Nat × List Char)) (used : List Nat)
    (threshold bits : Nat) : List Nat × List Nat :=
  match rest with
  | [] => ([], used)
  | (id_j, p_j) :: tl =>
    if id_j ∈ used then clusterInner p_i tl used threshold bits
    else if hamming_distance p_i p_j bits ≤ threshold then
      let r := clusterInner p_i tl (used ++ [id_j]) threshold bits
      (id_j :: r.1, r.2)
    else clusterInner p_i tl used threshold bits

/-- Outer loop of `cluster_by_hamming`: each not-yet-used item opens a new
cluster seeded by it; the inner loop scans the remaining items. -/
def clusterOuter (items : List (Nat × List Char)) (used : List Nat)
    (threshold bits : Nat) : List (List Nat) :=
  match items with
  | [] => []
  | (id_i, p_i) :: tl =>
    if id_i ∈ used then clusterOuter tl used threshold bits
    else
      let r := clusterInner p_i tl (used ++ [id_i]) threshold bits
      (id_i :: r.1) :: clusterOuter tl r.2 threshold bits

/-- `cluster_by_hamming` from `lib/hashing.py`: greedy single-pass
clustering of `(id, phash_hex)` items. -/
def cluster_by_hamming (items : List (Nat × List Char)) (threshold : Nat := 5)
    (bits : Nat := 64) : List (List Nat) :=
  clusterOuter items [] threshold bits

/-! ### Basic facts about `hamming_distance` -/

lemma natToBits_length (bits i : Nat) : (natToBits bits i).length = bits := by
  simp [natToBits]

lemma zip_self_no_mismatch (l : List Bool) :
    ((l.zip l).filter (fun q => decide (q.1 ≠ q.2))).length = 0 := by
  induction l with
  | nil => rfl
  | cons a tl ih => simpa using ih

lemma mismatch_comm (l1 l2 : List Bool) :
    ((l1.zip l2).filter (fun q => decide (q.1 ≠ q.2))).length
      = ((l2.zip l1).filter (fun q => decide (q.1 ≠ q.2))).length := by
  induction l1 generalizing l2 with
  | nil => cases l2 <;> rfl
  | cons a t1 ih =>
    cases l2 with
    | nil => rfl
    | cons b t2 =>
      have hab : (decide (a ≠ b)) = (decide (b ≠ a)) := by
        cases a <;> cases b <;> rfl
      simp only [List.zip_cons_cons, List.filter_cons]
      rw [hab]
      cases hba : decide (b ≠ a)
      · simpa using ih t2
      · simpa using ih t2

/-! ## services/repository.py — `Repository.create_file`

The `files` table is a list of rows in insertion order; the autoincrement
primary key is modelled as `max id + 1`.  Only the columns
`Repository.create_file` reads or writes for duplicate classification are
kept.  `Option String` for a hash models both an absent kwarg and an empty
string (both falsy in the `if md5:` / `if photo_hash:` guards). -/

structure FileRec where
  id : Nat
  path : String
  md5_hash : Option String
  photo_hash : Option String
  is_duplicate : Bool
  duplicate_of_id : Option Nat
deriving DecidableEq, Repr

/-- Autoincrement primary key for the next insert. -/
def nextId (db : List FileRec) : Nat :=
  (db.map (fun r => r.id)).foldr Nat.max 0 + 1

/-- `Repository.create_file`.  Returns `some (db', f)` — the updated table
and the returned `File` — or `none` for the re-raise at the end of the
`IntegrityError` handler.  The commit raises `IntegrityError` exactly when
the unique `path` column is violated (the one unique constraint of the
`files` table); the handler then looks the existing row up by path, then
md5, then photo hash, and re-marks it `is_duplicate = True` (the
`updated_at` refresh is not modelled — timestamps are outside the model). -/
def create_file (db : List FileRec) (path : String)
    (md5_hash photo_hash : Option String) : Option (List FileRec × FileRec) :=
  let byMd5 : Option Nat :=
    match md5_hash with
    | some m => (db.find? (fun r => decide (r.md5_hash = some m))).map (fun r => r.id)
    | none => none
  let duplicate_of : Option Nat :=
    match byMd5 with
    | some i => some i
    | none =>
      match photo_hash with
      | some p => (db.find? (fun r => decide (r.photo_hash = some p))).map (fun r => r.id)
      | none => none
  let f : FileRec :=
    { id := nextId db, path := path, md5_hash := md5_hash, photo_hash := photo_hash,
      is_duplicate := duplicate_of.isSome, duplicate_of_id := duplicate_of }
  if db.any (fun r => decide (r.path = path)) then
    let existing? : Option FileRec :=
      match db.find? (fun r => decide (r.path = path)) with
      | some e => some e
      | none =>
        match md5_hash with
        | some m =>
          match db.find? (fun r => decide (r.md5_hash = some m)) with
          | some e => some e
          | none =>
            match photo_hash with
            | some p => db.find? (fun r => decide (r.photo_hash = some p))
            | none => none
        | none =>
          match photo_hash with
          | some p => db.find? (fun r => decide (r.photo_hash = some p))
          | none => none
    match existing? with
    | some existing =>
      let existing' := { existing with is_duplicate := true }
      some (db.map (fun r => if r.id = existing.id then existing' else r), existing')
    | none => none
  else
    some (db ++ [f], f)

/-- One scan of a fixed folder (`cli.scan` with a session): each discovered
file's fingerprint `(path, md5, phash)` is handed serially to
`Repository.create_file`; `none` models the scan aborting on a re-raised
`IntegrityError`. -/
def scan_run (db : List FileRec)
    (files : List (String × Option String × Option String)) : Option (List FileRec) :=
  files.foldl
    (fun acc fi => acc.bind (fun d => (create_file d fi.1 fi.2.1 fi.2.2).map Prod.fst))
    (some db)

/-- The FileRecord invariant of the spec: a record with
`is_duplicate = true` has a non-null `duplicate_of_id` referencing a
record with a strictly smaller id. -/
def dupInvariant (db : List FileRec) : Prop :=
  ∀ r ∈ db, r.is_duplicate = true →
    ∃ r' ∈ db, r.duplicate_of_id = some r'.id ∧ r'.id < r.id

instance (db : List FileRec) : Decidable (dupInvariant db) := by
  unfold dupInvariant; infer_instance

/-- Ids strictly increase along the table (insertion order = id order). -/
def idsAscending (db : List FileRec) : Prop :=
  db.Pairwise (fun a b => a.id < b.id)

instance (db : List FileRec) : Decidable (idsAscending db) := by
  unfold idsAscending; infer_instance

/-- On an id-ascending table, `find?` returns the matching row with the
lowest id (SQLAlchemy's `.first()` on the unordered query). -/
lemma find?_min_id (p : FileRec → Bool) (db : List FileRec) (r : FileRec)
    (hmono : idsAscending db) (hfind : db.find? p = some r) :
    ∀ r' ∈ db, p r' = true → r.id ≤ r'.id := by
  induction db with
  | nil => simp at hfind
  | cons a tl ih =>
    rw [idsAscending, List.pairwise_cons] at hmono
    intro r' hr' hp'
    cases hpa : p a with
    | true =>
      rw [List.find?_cons_of_pos _ hpa] at hfind
      cases hfind
      rcases List.mem_cons.mp hr' with h | h
      · exact le_of_eq (by rw [h])
      · exact le_of_lt (hmono.1 r' h)
    | false =>
      rw [List.find?_cons_of_neg _ (by simp [hpa])] at hfind
      rcases List.mem_cons.mp hr' with h | h
      · rw [h] at hp'; rw [hp'] at hpa; cases hpa
      · exact ih hmono.2 hfind r' h hp'

/-! ## lib/db_lock.py — `DatabaseLock`

One row of the `application_locks` table (unique `lock_name`), and the
three `LockAcquisitionError` messages of `DatabaseLock.acquire`, kept as a
structured value carrying exactly the data each f-string interpolates:
`heldBy` for "is held by PID ... on ... (acquired at ...)", `waitTimeout`
for "Timeout waiting for lock ... (held by PID ... on ...)", and
`acquiredByAnother` for "was acquired by another process". -/

structure LockRow where
  lock_name : String
  process_id : Nat
  hostname : String
  acquired_at : Int
  expires_at : Option Int
deriving DecidableEq, Repr

inductive LockAcquisitionError where
  | heldBy (lock_name : String) (process_id : Nat) (hostname : String) (acquired_at : Int)
  | waitTimeout (lock_name : String) (process_id : Nat) (hostname : String)
  | acquiredByAnother (lock_name : String)
deriving DecidableEq, Repr

/-- The process id the error message interpolates, if any. -/
def LockAcquisitionError.namedPid : LockAcquisitionError → Option Nat
  | .heldBy _ p _ _ => some p
  | .waitTimeout _ p _ => some p
  | .acquiredByAnother _ => none

/-- The hostname the error message interpolates, if any. -/
def LockAcquisitionError.namedHost : LockAcquisitionError → Option String
  | .heldBy _ _ h _ => some h
  | .waitTimeout _ _ h => some h
  | .acquiredByAnother _ => none

/-- `DatabaseLock.acquire` with `wait_for_lock = False` (the default; the
claims under verification all concern this mode, in which the `while` loop
runs a single pass: an expired row is deleted and the insert follows
immediately, every other branch returns or raises).  `raceRow` models a
competing same-name row committed by another process between our read and
our commit: when present, our insert's commit fails with the uniqueness
violation (`IntegrityError`) and the competitor's row stays.  Result:
`(some err, table)` for a raise — the table is what the store then holds —
and `(none, table)` for success. -/
def acquire (locks : List LockRow) (lock_name : String) (process_id : Nat)
    (hostname : String) (now timeout_seconds : Int) (raceRow : Option LockRow) :
    Option LockAcquisitionError × List LockRow :=
  let expires_at := now + timeout_seconds
  let tryCommit : List LockRow → Option LockAcquisitionError × List LockRow := fun ls =>
    match raceRow with
    | none => (none, ls ++ [⟨lock_name, process_id, hostname, now, some expires_at⟩])
    | some rr => (some (.acquiredByAnother lock_name), ls ++ [rr])
  match locks.find? (fun r => decide (r.lock_name = lock_name)) with
  | some existing =>
    match existing.expires_at with
    | some e =>
      if e < now then tryCommit (locks.erase existing)
      else
        (some (.heldBy lock_name existing.process_id existing.hostname existing.acquired_at),
         locks)
    | none =>
      (some (.heldBy lock_name existing.process_id existing.hostname existing.acquired_at),
       locks)
  | none => tryCommit locks

/-- `DatabaseLock.release`: delete the row held in `self.lock_record` and
clear it; with no record held, do nothing.  Deleting a row that is already
gone is a no-op at the ORM level (the rowcount mismatch only produces a
warning, not an exception), so the `except`/re-raise branch — which covers
store-level failures outside this model — is not reached. -/
def release (locks : List LockRow) (lock_record : Option LockRow) :
    List LockRow × Option LockRow :=
  match lock_record with
  | some r => (locks.erase r, none)
  | none => (locks, none)

/-! ## Claim theorems -/

/-- C8: for every valid 64-bit hex hash `h`, `hamming_distance h h = 0`,
and `hamming_distance` is symmetric (here proved for all strings, valid or
not). -/
theorem hamming_distance_self_zero_and_symm :
    (∀ h : List Char, (hexStrToNat? h).isSome → hamming_distance h h 64 = 0) ∧
    (∀ a b : List Char, hamming_distance a b 64 = hamming_distance b a 64) := by
  constructor
  · intro h hv
    obtain ⟨n, hn⟩ := Option.isSome_iff_exists.mp hv
    have hb : hexToBitstring h 64 = natToBits 64 n := by
      simp [hexToBitstring, hn]
    have hne : hexToBitstring h 64 ≠ [] := by
      rw [hb]
      intro hemp
      have hl := natToBits_length 64 n
      rw [hemp] at hl
      simp at hl
    simp only [hamming_distance]
    rw [if_neg (by simp [hne])]
    exact zip_self_no_mismatch _
  · intro a b
    simp only [hamming_distance]
    by_cases h1 : hexToBitstring a 64 = [] <;> by_cases h2 : hexToBitstring b 64 = []
    · simp [h1, h2]
    · simp [h1, h2]
    · simp [h1, h2]
    · rw [if_neg (by simp [h1, h2]), if_neg (by simp [h1, h2])]
      exact mismatch_comm _ _

/-- Witness for C8 at the concrete hashes `"f"` and `"0"`. -/
theorem hamming_distance_self_zero_and_symm_witness :
    hamming_distance ['f'] ['f'] 64 = 0 ∧
    hamming_distance ['0'] ['f'] 64 = hamming_distance ['f'] ['0'] 64 :=
  ⟨hamming_distance_self_zero_and_symm.1 ['f'] (by decide),
   hamming_distance_self_zero_and_symm.2 ['0'] ['f']⟩

/-- C4: an expired lock row (same name, `expires_at` in the past) is
deleted and a fresh row expiring at `now + timeout_seconds` is inserted;
`acquire` returns success (no error raised). -/
theorem acquire_reclaims_expired (locks : List LockRow) (lock_name : String)
    (pid : Nat) (host : String) (now timeout : Int) (r : LockRow) (e : Int)
    (hfind : locks.find? (fun x => decide (x.lock_name = lock_name)) = some r)
    (hexp : r.expires_at = some e) (hlt : e < now) :
    acquire locks lock_name pid host now timeout none =
      (none, locks.erase r ++ [⟨lock_name, pid, host, now, some (now + timeout)⟩]) := by
  simp only [acquire, hfind, hexp, if_pos hlt]

/-- Witness for C4: a `"scan"` lock that expired an hour ago is reclaimed. -/
theorem acquire_reclaims_expired_witness :
    acquire [⟨"scan", 42, "hostA", -7200, some (-3600)⟩] "scan" 7 "hostB" 0 3600 none =
      (none, [⟨"scan", 7, "hostB", 0, some 3600⟩]) := by
  have h := acquire_reclaims_expired
    [⟨"scan", 42, "hostA", -7200, some (-3600)⟩] "scan" 7 "hostB" 0 3600
    ⟨"scan", 42, "hostA", -7200, some (-3600)⟩ (-3600) (by decide) rfl (by decide)
  simpa using h

/-- C5: with an existing non-expired row for the same name and
`wait_for_lock = False`, `acquire` raises `LockAcquisitionError` naming
the holder's process id and host, and leaves the lock table unchanged. -/
theorem acquire_held_fails_naming_holder (locks : List LockRow) (lock_name : String)
    (pid : Nat) (host : String) (now timeout : Int) (race : Option LockRow) (r : LockRow)
    (hfind : locks.find? (fun x => decide (x.lock_name = lock_name)) = some r)
    (hnexp : ∀ e, r.expires_at = some e → ¬ e < now) :
    acquire locks lock_name pid host now timeout race =
      (some (.heldBy lock_name r.process_id r.hostname r.acquired_at), locks) ∧
    (LockAcquisitionError.heldBy lock_name r.process_id r.hostname
        r.acquired_at).namedPid = some r.process_id ∧
    (LockAcquisitionError.heldBy lock_name r.process_id r.hostname
        r.acquired_at).namedHost = some r.hostname := by
  refine ⟨?_, rfl, rfl⟩
  simp only [acquire, hfind]
  cases hexp : r.expires_at with
  | none => rfl
  | some e => simp [if_neg (hnexp e hexp)]

/-- Witness for C5: acquiring `"scan"` held (unexpired) by PID 42. -/
theorem acquire_held_fails_naming_holder_witness :
    acquire [⟨"scan", 42, "hostA", 0, some 3600⟩] "scan" 7 "hostB" 10 3600 none =
      (some (.heldBy "scan" 42 "hostA" 0), [⟨"scan", 42, "hostA", 0, some 3600⟩]) ∧
    (LockAcquisitionError.heldBy "scan" 42 "hostA" 0).namedPid = some 42 ∧
    (LockAcquisitionError.heldBy "scan" 42 "hostA" 0).namedHost = some "hostA" :=
  acquire_held_fails_naming_holder
    [⟨"scan", 42, "hostA", 0, some 3600⟩] "scan" 7 "hostB" 10 3600 none
    ⟨"scan", 42, "hostA", 0, some 3600⟩ (by decide) (by decide)

/-- C6 counterexample: losing the race at commit time (competitor PID 999
on hostA commits first) raises the `acquiredByAnother` message, which
names no process id and no host — in particular not the winning
holder's. -/
theorem lost_race_message_names_no_holder :
    acquire [] "scan" 1 "hostB" 0 3600 (some ⟨"scan", 999, "hostA", 0, some 3600⟩) =
      (some (.acquiredByAnother "scan"), [⟨"scan", 999, "hostA", 0, some 3600⟩]) ∧
    (LockAcquisitionError.acquiredByAnother "scan").namedPid = none ∧
    (LockAcquisitionError.acquiredByAnother "scan").namedHost = none ∧
    (LockAcquisitionError.acquiredByAnother "scan").namedPid ≠ some 999 ∧
    (LockAcquisitionError.acquiredByAnother "scan").namedHost ≠ some "hostA" := by
  decide

/-- C6 amended: a lost race with `wait_for_lock = False` raises a
`LockAcquisitionError` that reports only that the lock was acquired by
another process — it carries the lock name but not the winning holder's
process id or host. -/
theorem lost_race_raises_acquired_by_another (locks : List LockRow) (lock_name : String)
    (pid : Nat) (host : String) (now timeout : Int) (rr : LockRow)
    (hnone : locks.find? (fun x => decide (x.lock_name = lock_name)) = none) :
    acquire locks lock_name pid host now timeout (some rr) =
      (some (.acquiredByAnother lock_name), locks ++ [rr]) ∧
    (LockAcquisitionError.acquiredByAnother lock_name).namedPid = none ∧
    (LockAcquisitionError.acquiredByAnother lock_name).namedHost = none := by
  refine ⟨?_, rfl, rfl⟩
  simp [acquire, hnone]

/-- Witness for the amended C6: the empty lock table, race lost to PID 999. -/
theorem lost_race_raises_acquired_by_another_witness :
    acquire [] "purge" 1 "hostB" 0 7200 (some ⟨"purge", 999, "hostA", 0, some 7200⟩) =
      (some (.acquiredByAnother "purge"), [⟨"purge", 999, "hostA", 0, some 7200⟩]) ∧
    (LockAcquisitionError.acquiredByAnother "purge").namedPid = none ∧
    (LockAcquisitionError.acquiredByAnother "purge").namedHost = none :=
  lost_race_raises_acquired_by_another [] "purge" 1 "hostB" 0 7200
    ⟨"purge", 999, "hostA", 0, some 7200⟩ rfl

/-- C7: `release` deletes the row owned by this lock instance and clears
`lock_record`; when the row is already gone the deletion is a no-op and
`release` still returns normally with the table unchanged. -/
theorem release_deletes_row_and_tolerates_missing (locks : List LockRow) (r : LockRow) :
    release locks (some r) = (locks.erase r, none) ∧
    (r ∉ locks → release locks (some r) = (locks, none)) := by
  refine ⟨rfl, fun h => ?_⟩
  simp [release, List.erase_of_not_mem h]

/-- Witness for C7: releasing a lock whose row was already deleted. -/
theorem release_deletes_row_and_tolerates_missing_witness :
    release [] (some ⟨"scan", 42, "hostA", 0, some 3600⟩) = ([], none) :=
  (release_deletes_row_and_tolerates_missing [] ⟨"scan", 42, "hostA", 0, some 3600⟩).2
    (by simp)

/-- C2 (code bug): the unique-path conflict path of
`Repository.create_file` violates the FileRecord invariant.  Re-inserting
path `"a"` (same content hash) over a table holding a single non-duplicate
record makes the handler set that record's `is_duplicate` to `True`
without giving it a `duplicate_of_id`: the resulting table has a duplicate
record with a null reference, so the invariant fails. -/
theorem conflict_path_breaks_invariant :
    dupInvariant [⟨1, "a", some "m", none, false, none⟩] ∧
    create_file [⟨1, "a", some "m", none, false, none⟩] "a" (some "m") none =
      some ([⟨1, "a", some "m", none, true, none⟩],
            ⟨1, "a", some "m", none, true, none⟩) ∧
    ¬ dupInvariant [⟨1, "a", some "m", none, true, none⟩] := by
  decide

/-- C3 (code bug): scanning the same one-file folder twice is not
idempotent.  The first run stores the file as a non-duplicate; the second
run's insert hits the unique-path conflict and the handler unconditionally
re-marks the existing record `is_duplicate = True` (with
`duplicate_of_id` still null) instead of re-applying the matching policy,
so the record's flag changes between the runs. -/
theorem second_scan_changes_flags :
    scan_run [] [("a", some "m", none)] =
      some [⟨1, "a", some "m", none, false, none⟩] ∧
    scan_run [⟨1, "a", some "m", none, false, none⟩] [("a", some "m", none)] =
      some [⟨1, "a", some "m", none, true, none⟩] ∧
    (⟨1, "a", some "m", none, true, none⟩ : FileRec) ≠
      ⟨1, "a", some "m", none, false, none⟩ := by
  decide

/-- C1: with no unique-path conflict, a file whose content hash matches
existing records is stored as a duplicate of the matching record with the
lowest id (the earliest-created one); with no content-hash match but an
exact perceptual-hash match, the same earliest-record rule applies. -/
theorem create_file_duplicate_of_earliest
    (db : List FileRec) (path : String) (md5_hash photo_hash : Option String)
    (hpath : ∀ r ∈ db, r.path ≠ path)
    (hmono : idsAscending db) :
    (∀ m, md5_hash = some m →
      (∃ r0 ∈ db, r0.md5_hash = some m) →
      ∃ db' f, create_file db path md5_hash photo_hash = some (db', f) ∧
        f.is_duplicate = true ∧
        ∃ e ∈ db, e.md5_hash = some m ∧ f.duplicate_of_id = some e.id ∧
          ∀ r ∈ db, r.md5_hash = some m → e.id ≤ r.id) ∧
    (∀ p, photo_hash = some p →
      (∀ m, md5_hash = some m → ∀ r ∈ db, r.md5_hash ≠ some m) →
      (∃ r0 ∈ db, r0.photo_hash = some p) →
      ∃ db' f, create_file db path md5_hash photo_hash = some (db', f) ∧
        f.is_duplicate = true ∧
        ∃ e ∈ db, e.photo_hash = some p ∧ f.duplicate_of_id = some e.id ∧
          ∀ r ∈ db, r.photo_hash = some p → e.id ≤ r.id) := by
  have hany : db.any (fun r => decide (r.path = path)) = false := by
    rw [List.any_eq_false]
    intro r hr
    simp [hpath r hr]
  constructor
  · intro m hm hex
    subst hm
    obtain ⟨r0, hr0, hr0m⟩ := hex
    have hne : db.find? (fun r => decide (r.md5_hash = some m)) ≠ none := by
      intro hnone
      rw [List.find?_eq_none] at hnone
      exact hnone r0 hr0 (by simp [hr0m])
    obtain ⟨e, hfind⟩ := Option.ne_none_iff_exists'.mp hne
    have he_mem : e ∈ db := List.mem_of_find?_eq_some hfind
    have he_m : e.md5_hash = some m := by simpa using List.find?_some hfind
    have hcf : create_file db path (some m) photo_hash =
        some (db ++ [⟨nextId db, path, some m, photo_hash, true, some e.id⟩],
              ⟨nextId db, path, some m, photo_hash, true, some e.id⟩) := by
      simp [create_file, hfind, hany]
    refine ⟨_, _, hcf, rfl, e, he_mem, he_m, rfl, ?_⟩
    intro r hr hrm
    exact find?_min_id _ db e hmono hfind r hr (by simp [hrm])
  · intro p hp hnomd5 hex
    subst hp
    obtain ⟨r0, hr0, hr0p⟩ := hex
    have hne : db.find? (fun r => decide (r.photo_hash = some p)) ≠ none := by
      intro hnone
      rw [List.find?_eq_none] at hnone
      exact hnone r0 hr0 (by simp [hr0p])
    obtain ⟨e, hfind⟩ := Option.ne_none_iff_exists'.mp hne
    have he_mem : e ∈ db := List.mem_of_find?_eq_some hfind
    have he_p : e.photo_hash = some p := by simpa using List.find?_some hfind
    have hcf : create_file db path md5_hash (some p) =
        some (db ++ [⟨nextId db, path, md5_hash, some p, true, some e.id⟩],
              ⟨nextId db, path, md5_hash, some p, true, some e.id⟩) := by
      cases md5_hash with
      | none => simp [create_file, hfind, hany]
      | some m =>
        have hmd5 : db.find? (fun r => decide (r.md5_hash = some m)) = none := by
          rw [List.find?_eq_none]
          intro x hx
          simp [hnomd5 m rfl x hx]
        simp [create_file, hmd5, hfind, hany]
    refine ⟨_, _, hcf, rfl, e, he_mem, he_p, rfl, ?_⟩
    intro r hr hrp
    exact find?_min_id _ db e hmono hfind r hr (by simp [hrp])

/-- Witness for C1: a content-hash match (duplicate of id 1, not id 2) and
a perceptual-hash match with no content-hash match. -/
theorem create_file_duplicate_of_earliest_witness :
    (∃ (db' : List FileRec) (f : FileRec), create_file
        [⟨1, "a", some "m", some "q", false, none⟩,
         ⟨2, "b", some "m", none, true, some 1⟩] "c" (some "m") none =
        some (db', f) ∧
      f.is_duplicate = true ∧
      ∃ e ∈ ([⟨1, "a", some "m", some "q", false, none⟩,
              ⟨2, "b", some "m", none, true, some 1⟩] : List FileRec),
        e.md5_hash = some "m" ∧ f.duplicate_of_id = some e.id ∧
          ∀ r ∈ ([⟨1, "a", some "m", some "q", false, none⟩,
                  ⟨2, "b", some "m", none, true, some 1⟩] : List FileRec),
            r.md5_hash = some "m" → e.id ≤ r.id) ∧
    (∃ (db' : List FileRec) (f : FileRec), create_file
        [⟨1, "a", some "x", some "q", false, none⟩] "c" (some "m") (some "q") =
        some (db', f) ∧
      f.is_duplicate = true ∧
      ∃ e ∈ ([⟨1, "a", some "x", some "q", false, none⟩] : List FileRec),
        e.photo_hash = some "q" ∧ f.duplicate_of_id = some e.id ∧
          ∀ r ∈ ([⟨1, "a", some "x", some "q", false, none⟩] : List FileRec),
            r.photo_hash = some "q" → e.id ≤ r.id) :=
  ⟨(create_file_duplicate_of_earliest
      [⟨1, "a", some "m", some "q", false, none⟩,
       ⟨2, "b", some "m", none, true, some 1⟩] "c" (some "m") none
      (by decide) (by decide)).1 "m" rfl (by decide),
   (create_file_duplicate_of_earliest
      [⟨1, "a", some "x", some "q", false, none⟩] "c" (some "m") (some "q")
      (by decide) (by decide)).2 "q" rfl (by decide) (by decide)⟩

/-! ### Structure of the greedy clustering -/

lemma clusterInner_cons_used (p : List Char) (j : Nat) (q : List Char)
    (tl : List (Nat × List Char)) (u : List Nat) (t bits : Nat) (hj : j ∈ u) :
    clusterInner p ((j, q) :: tl) u t bits = clusterInner p tl u t bits := by
  simp [clusterInner, hj]

lemma clusterInner_cons_absorb (p : List Char) (j : Nat) (q : List Char)
    (tl : List (Nat × List Char)) (u : List Nat) (t bits : Nat) (hj : j ∉ u)
    (hd : hamming_distance p q bits ≤ t) :
    clusterInner p ((j, q) :: tl) u t bits =
      (j :: (clusterInner p tl (u ++ [j]) t bits).1,
       (clusterInner p tl (u ++ [j]) t bits).2) := by
  simp [clusterInner, hj, hd]

lemma clusterInner_cons_skip (p : List Char) (j : Nat) (q : List Char)
    (tl : List (Nat × List Char)) (u : List Nat) (t bits : Nat) (hj : j ∉ u)
    (hd : ¬ hamming_distance p q bits ≤ t) :
    clusterInner p ((j, q) :: tl) u t bits = clusterInner p tl u t bits := by
  simp [clusterInner, hj, hd]

lemma clusterOuter_cons_used (i : Nat) (p : List Char)
    (tl : List (Nat × List Char)) (u : List Nat) (t bits : Nat) (hi : i ∈ u) :
    clusterOuter ((i, p) :: tl) u t bits = clusterOuter tl u t bits := by
  simp [clusterOuter, hi]

lemma clusterOuter_cons_new (i : Nat) (p : List Char)
    (tl : List (Nat × List Char)) (u : List Nat) (t bits : Nat) (hi : i ∉ u) :
    clusterOuter ((i, p) :: tl) u t bits =
      (i :: (clusterInner p tl (u ++ [i]) t bits).1) ::
        clusterOuter tl (clusterInner p tl (u ++ [i]) t bits).2 t bits := by
  simp [clusterOuter, hi]

/-- The inner loop's final `used` list is the initial one extended by
exactly the absorbed ids, in order. -/
lemma clusterInner_used_eq (p : List Char) (tl : List (Nat × List Char))
    (u : List Nat) (t bits : Nat) :
    (clusterInner p tl u t bits).2 = u ++ (clusterInner p tl u t bits).1 := by
  induction tl generalizing u with
  | nil => simp [clusterInner]
  | cons hd tl ih =>
    obtain ⟨j, q⟩ := hd
    by_cases hj : j ∈ u
    · rw [clusterInner_cons_used p j q tl u t bits hj]
      exact ih u
    · by_cases hd1 : hamming_distance p q bits ≤ t
      · rw [clusterInner_cons_absorb p j q tl u t bits hj hd1]
        rw [ih (u ++ [j])]
        simp
      · rw [clusterInner_cons_skip p j q tl u t bits hj hd1]
        exact ih u

/-- Absorbed ids come from the scanned items and were not yet used. -/
lemma clusterInner_mem (p : List Char) (tl : List (Nat × List Char))
    (u : List Nat) (t bits : Nat) :
    ∀ x ∈ (clusterInner p tl u t bits).1, x ∈ tl.map Prod.fst ∧ x ∉ u := by
  induction tl generalizing u with
  | nil => intro x hx; simp [clusterInner] at hx
  | cons hd tl ih =>
    obtain ⟨j, q⟩ := hd
    intro x hx
    by_cases hj : j ∈ u
    · rw [clusterInner_cons_used p j q tl u t bits hj] at hx
      obtain ⟨h1, h2⟩ := ih u x hx
      exact ⟨by simp [h1], h2⟩
    · by_cases hd1 : hamming_distance p q bits ≤ t
      · rw [clusterInner_cons_absorb p j q tl u t bits hj hd1] at hx
        rcases List.mem_cons.mp hx with rfl | hx'
        · exact ⟨by simp, hj⟩
        · obtain ⟨h1, h2⟩ := ih (u ++ [j]) x hx'
          exact ⟨by simp [h1], fun hu => h2 (by simp [hu])⟩
      · rw [clusterInner_cons_skip p j q tl u t bits hj hd1] at hx
        obtain ⟨h1, h2⟩ := ih u x hx
        exact ⟨by simp [h1], h2⟩

/-- The absorbed ids form a sublist of the scanned ids. -/
lemma clusterInner_sublist (p : List Char) (tl : List (Nat × List Char))
    (u : List Nat) (t bits : Nat) :
    List.Sublist (clusterInner p tl u t bits).1 (tl.map Prod.fst) := by
  induction tl generalizing u with
  | nil => simp [clusterInner]
  | cons hd tl ih =>
    obtain ⟨j, q⟩ := hd
    rw [List.map_cons]
    by_cases hj : j ∈ u
    · rw [clusterInner_cons_used p j q tl u t bits hj]
      exact List.Sublist.cons _ (ih u)
    · by_cases hd1 : hamming_distance p q bits ≤ t
      · rw [clusterInner_cons_absorb p j q tl u t bits hj hd1]
        exact List.Sublist.cons₂ _ (ih (u ++ [j]))
      · rw [clusterInner_cons_skip p j q tl u t bits hj hd1]
        exact List.Sublist.cons _ (ih u)

/-- Raising the threshold only grows the set of ids the inner loop absorbs
for a fixed seed, provided the scanned ids are distinct and the extra ids
already in the larger `used` list do not occur among them. -/
lemma clusterInner_mono (p : List Char) (t1 t2 bits : Nat) (h12 : t1 ≤ t2) :
    ∀ (tl : List (Nat × List Char)) (u1 u2 : List Nat),
      (tl.map Prod.fst).Nodup →
      (∀ y, y ∈ u1 → y ∈ u2) →
      (∀ y, y ∈ u2 → y ∉ u1 → y ∉ tl.map Prod.fst) →
      ∀ x ∈ (clusterInner p tl u1 t1 bits).1, x ∈ (clusterInner p tl u2 t2 bits).1 := by
  intro tl
  induction tl with
  | nil =>
    intro u1 u2 _ _ _ x hx
    simp [clusterInner] at hx
  | cons hd tl ih =>
    obtain ⟨j, q⟩ := hd
    intro u1 u2 hnd hsub hdiff x hx
    rw [List.map_cons, List.nodup_cons] at hnd
    by_cases hj1 : j ∈ u1
    · have hj2 : j ∈ u2 := hsub j hj1
      rw [clusterInner_cons_used p j q tl u1 t1 bits hj1] at hx
      rw [clusterInner_cons_used p j q tl u2 t2 bits hj2]
      exact ih u1 u2 hnd.2 hsub
        (fun y hy hyn hmem => hdiff y hy hyn (by simp [hmem])) x hx
    · by_cases hj2 : j ∈ u2
      · exact absurd (by simp : j ∈ ((j, q) :: tl).map Prod.fst) (hdiff j hj2 hj1)
      · by_cases hd1 : hamming_distance p q bits ≤ t1
        · have hd2 : hamming_distance p q bits ≤ t2 := le_trans hd1 h12
          rw [clusterInner_cons_absorb p j q tl u1 t1 bits hj1 hd1] at hx
          rw [clusterInner_cons_absorb p j q tl u2 t2 bits hj2 hd2]
          rcases List.mem_cons.mp hx with rfl | hx'
          · exact List.mem_cons_self _ _
          · refine List.mem_cons_of_mem _ ?_
            refine ih (u1 ++ [j]) (u2 ++ [j]) hnd.2 (fun y hy => ?_)
              (fun y hy hyn => ?_) x hx'
            · rcases List.mem_append.mp hy with h | h
              · exact List.mem_append.mpr (Or.inl (hsub y h))
              · exact List.mem_append.mpr (Or.inr h)
            · intro hmem
              rcases List.mem_append.mp hy with h | h
              · have hyn1 : y ∉ u1 := fun hh => hyn (List.mem_append.mpr (Or.inl hh))
                exact hdiff y h hyn1 (by simp [hmem])
              · have hyj : y = j := by simpa using h
                exact hyn (List.mem_append.mpr (Or.inr (by simp [hyj])))
        · by_cases hd2 : hamming_distance p q bits ≤ t2
          · rw [clusterInner_cons_skip p j q tl u1 t1 bits hj1 hd1] at hx
            rw [clusterInner_cons_absorb p j q tl u2 t2 bits hj2 hd2]
            refine List.mem_cons_of_mem _ ?_
            refine ih u1 (u2 ++ [j]) hnd.2
              (fun y hy => List.mem_append.mpr (Or.inl (hsub y hy)))
              (fun y hy hyn => ?_) x hx
            intro hmem
            rcases List.mem_append.mp hy with h | h
            · exact hdiff y h hyn (by simp [hmem])
            · have hyj : y = j := by simpa using h
              subst hyj
              exact hnd.1 hmem
          · rw [clusterInner_cons_skip p j q tl u1 t1 bits hj1 hd1] at hx
            rw [clusterInner_cons_skip p j q tl u2 t2 bits hj2 hd2]
            exact ih u1 u2 hnd.2 hsub
              (fun y hy hyn hmem => hdiff y hy hyn (by simp [hmem])) x hx

/-- An id appears in the emitted clusters exactly when it is an input id
not already in the `used` list. -/
lemma clusterOuter_flatten_mem (t bits : Nat) :
    ∀ (items : List (Nat × List Char)) (u : List Nat) (x : Nat),
      x ∈ (clusterOuter items u t bits).flatten ↔
        x ∈ items.map Prod.fst ∧ x ∉ u := by
  intro items
  induction items with
  | nil => intro u x; simp [clusterOuter]
  | cons hd tl ih =>
    obtain ⟨i, p⟩ := hd
    intro u x
    by_cases hi : i ∈ u
    · rw [clusterOuter_cons_used i p tl u t bits hi, ih u x]
      simp only [List.map_cons, List.mem_cons]
      constructor
      · rintro ⟨h1, h2⟩
        exact ⟨Or.inr h1, h2⟩
      · rintro ⟨h1 | h1, h2⟩
        · rw [h1] at h2; exact absurd hi h2
        · exact ⟨h1, h2⟩
    · rw [clusterOuter_cons_new i p tl u t bits hi]
      have hu2 : (clusterInner p tl (u ++ [i]) t bits).2 =
          u ++ i :: (clusterInner p tl (u ++ [i]) t bits).1 := by
        rw [clusterInner_used_eq]
        simp
      rw [List.flatten_cons]
      constructor
      · intro hx
        rcases List.mem_append.mp hx with hx1 | hx2
        · rcases List.mem_cons.mp hx1 with rfl | hx1'
          · exact ⟨by simp, hi⟩
          · obtain ⟨h1, h2⟩ := clusterInner_mem p tl (u ++ [i]) t bits x hx1'
            exact ⟨by simp [h1], fun hu => h2 (by simp [hu])⟩
        · obtain ⟨h1, h2⟩ := (ih _ x).mp hx2
          refine ⟨by simp [h1], fun hu => h2 ?_⟩
          rw [hu2]
          simp [hu]
      · rintro ⟨h1, h2⟩
        rw [List.map_cons] at h1
        rcases List.mem_cons.mp h1 with rfl | h1'
        · exact List.mem_append.mpr (Or.inl (List.mem_cons_self _ _))
        · by_cases hxc : x ∈ (clusterInner p tl (u ++ [i]) t bits).1
          · exact List.mem_append.mpr (Or.inl (List.mem_cons_of_mem _ hxc))
          · by_cases hxi : x = i
            · exact List.mem_append.mpr (Or.inl (by simp [hxi]))
            · refine List.mem_append.mpr (Or.inr ((ih _ x).mpr ⟨h1', ?_⟩))
              rw [hu2]
              intro hmem
              rcases List.mem_append.mp hmem with h | h
              · exact h2 h
              · rcases List.mem_cons.mp h with h' | h'
                · exact hxi h'
                · exact hxc h'

/-- Every emitted cluster is non-empty (it contains its seed). -/
lemma clusterOuter_nonempty (t bits : Nat) :
    ∀ (items : List (Nat × List Char)) (u : List Nat),
      ∀ c ∈ clusterOuter items u t bits, c ≠ [] := by
  intro items
  induction items with
  | nil => intro u c hc; simp [clusterOuter] at hc
  | cons hd tl ih =>
    obtain ⟨i, p⟩ := hd
    intro u c hc
    by_cases hi : i ∈ u
    · rw [clusterOuter_cons_used i p tl u t bits hi] at hc
      exact ih u c hc
    · rw [clusterOuter_cons_new i p tl u t bits hi] at hc
      rcases List.mem_cons.mp hc with rfl | h
      · simp
      · exact ih _ c h

/-- With pairwise-distinct input ids, no id appears twice across the
emitted clusters. -/
lemma clusterOuter_flatten_nodup (t bits : Nat) :
    ∀ (items : List (Nat × List Char)) (u : List Nat),
      (items.map Prod.fst).Nodup → (clusterOuter items u t bits).flatten.Nodup := by
  intro items
  induction items with
  | nil => intro u _; simp [clusterOuter]
  | cons hd tl ih =>
    obtain ⟨i, p⟩ := hd
    intro u hnd
    rw [List.map_cons, List.nodup_cons] at hnd
    by_cases hi : i ∈ u
    · rw [clusterOuter_cons_used i p tl u t bits hi]
      exact ih u hnd.2
    · rw [clusterOuter_cons_new i p tl u t bits hi]
      have hu2 : (clusterInner p tl (u ++ [i]) t bits).2 =
          u ++ i :: (clusterInner p tl (u ++ [i]) t bits).1 := by
        rw [clusterInner_used_eq]
        simp
      rw [List.flatten_cons, List.nodup_append]
      refine ⟨?_, ih _ hnd.2, ?_⟩
      · rw [List.nodup_cons]
        refine ⟨?_, List.Nodup.sublist (clusterInner_sublist p tl (u ++ [i]) t bits) hnd.2⟩
        intro hic
        exact hnd.1 (clusterInner_mem p tl (u ++ [i]) t bits i hic).1
      · intro x hx hxf
        have h2 := (clusterOuter_flatten_mem t bits tl _ x).mp hxf
        refine h2.2 ?_
        rw [hu2]
        exact List.mem_append.mpr (Or.inr hx)

/-- Seed property: the head of the `k`-th emitted cluster is the first
input id that is neither in the initial `used` list nor assigned to an
earlier cluster. -/
lemma clusterOuter_seed (t bits : Nat) :
    ∀ (items : List (Nat × List Char)) (u : List Nat) (k : Nat) (c : List Nat),
      (clusterOuter items u t bits)[k]? = some c →
      c.head? = ((items.map Prod.fst).filter
        (fun x => decide (x ∉ u ++ ((clusterOuter items u t bits).take k).flatten))).head? := by
  intro items
  induction items with
  | nil => intro u k c hk; simp [clusterOuter] at hk
  | cons hd tl ih =>
    obtain ⟨i, p⟩ := hd
    intro u k c hk
    by_cases hi : i ∈ u
    · rw [clusterOuter_cons_used i p tl u t bits hi] at hk ⊢
      rw [ih u k c hk]
      have hdrop : (((i, p) :: tl).map Prod.fst).filter
          (fun x => decide (x ∉ u ++ ((clusterOuter tl u t bits).take k).flatten)) =
          (tl.map Prod.fst).filter
          (fun x => decide (x ∉ u ++ ((clusterOuter tl u t bits).take k).flatten)) := by
        rw [List.map_cons, List.filter_cons]
        simp [hi]
      rw [hdrop]
    · rw [clusterOuter_cons_new i p tl u t bits hi] at hk ⊢
      cases k with
      | zero =>
        rw [List.getElem?_cons_zero] at hk
        injection hk with hk
        subst hk
        simp only [List.take_zero, List.flatten_nil, List.append_nil,
          List.map_cons, List.filter_cons]
        simp [hi]
      | succ k =>
        rw [List.getElem?_cons_succ] at hk
        rw [ih _ k c hk]
        have hu2 : (clusterInner p tl (u ++ [i]) t bits).2 =
            u ++ i :: (clusterInner p tl (u ++ [i]) t bits).1 := by
          rw [clusterInner_used_eq]
          simp
        rw [List.take_succ_cons, List.flatten_cons]
        simp only [hu2, List.append_assoc, List.cons_append]
        rw [List.map_cons, List.filter_cons]
        simp

/-- C9 counterexample: with hashes `0x0`, `0x3`, `0x7` (pairwise Hamming
distances 2, 3, 1) and thresholds `1 < 2`, the `t = 1` clustering is
`[[1], [2, 3]]` but the `t = 2` clustering is `[[1, 2], [3]]`: the cluster
`[2, 3]` is contained in no cluster of the coarser threshold, so the
refinement property fails. -/
theorem cluster_refinement_fails :
    (1 : Nat) < 2 ∧
    cluster_by_hamming [(1, ['0']), (2, ['3']), (3, ['7'])] 1 64 = [[1], [2, 3]] ∧
    cluster_by_hamming [(1, ['0']), (2, ['3']), (3, ['7'])] 2 64 = [[1, 2], [3]] ∧
    ¬ (∀ c1 ∈ cluster_by_hamming [(1, ['0']), (2, ['3']), (3, ['7'])] 1 64,
        ∃ c2 ∈ cluster_by_hamming [(1, ['0']), (2, ['3']), (3, ['7'])] 2 64,
          ∀ x ∈ c1, x ∈ c2) := by
  decide

/-- C9 amended: refinement holds for the first cluster only — with
pairwise-distinct ids and thresholds `t1 < t2`, the cluster seeded by the
first input item under `t1` is a subset of the cluster seeded by it under
`t2`.  (Later clusters need not refine, as the counterexample shows:
members of a later `t1`-cluster can be split between an earlier
`t2`-cluster and the rest.) -/
theorem first_cluster_monotone (items : List (Nat × List Char)) (t1 t2 bits : Nat)
    (h12 : t1 < t2) (hnd : (items.map Prod.fst).Nodup) :
    ∀ c1 c2, (cluster_by_hamming items t1 bits).head? = some c1 →
      (cluster_by_hamming items t2 bits).head? = some c2 →
      ∀ x ∈ c1, x ∈ c2 := by
  intro c1 c2 h1 h2 x hx
  cases items with
  | nil => simp [cluster_by_hamming, clusterOuter] at h1
  | cons hd tl =>
    obtain ⟨i, p⟩ := hd
    rw [List.map_cons, List.nodup_cons] at hnd
    have hi : i ∉ ([] : List Nat) := by simp
    rw [cluster_by_hamming, clusterOuter_cons_new i p tl [] t1 bits hi] at h1
    rw [cluster_by_hamming, clusterOuter_cons_new i p tl [] t2 bits hi] at h2
    rw [List.head?_cons] at h1 h2
    injection h1 with h1
    injection h2 with h2
    subst h1
    subst h2
    rcases List.mem_cons.mp hx with rfl | hx'
    · exact List.mem_cons_self _ _
    · refine List.mem_cons_of_mem _ ?_
      exact clusterInner_mono p t1 t2 bits (le_of_lt h12) tl ([] ++ [i]) ([] ++ [i])
        hnd.2 (fun y hy => hy) (fun y hy hyn => absurd hy hyn) x hx'

/-- Witness for the amended C9 at the counterexample's items: the first
`t = 1` cluster `[1]` is contained in the first `t = 2` cluster `[1, 2]`. -/
theorem first_cluster_monotone_witness : (1 : Nat) ∈ ([1, 2] : List Nat) :=
  first_cluster_monotone [(1, ['0']), (2, ['3']), (3, ['7'])] 1 2 64 (by decide)
    (by decide) [1] [1, 2] (by decide) (by decide) 1 (by decide)

/-- C10: on inputs with pairwise-distinct ids, `cluster_by_hamming`
returns a partition of exactly the input ids — every cluster is
non-empty, no id occurs twice across clusters, an id occurs in the output
iff it is an input id, and the head of each cluster is the earliest input
id not assigned to an earlier cluster. -/
theorem cluster_by_hamming_partition (items : List (Nat × List Char)) (t bits : Nat)
    (hnd : (items.map Prod.fst).Nodup) :
    (∀ c ∈ cluster_by_hamming items t bits, c ≠ []) ∧
    (cluster_by_hamming items t bits).flatten.Nodup ∧
    (∀ x, x ∈ (cluster_by_hamming items t bits).flatten ↔ x ∈ items.map Prod.fst) ∧
    (∀ k c, (cluster_by_hamming items t bits)[k]? = some c →
      c.head? = ((items.map Prod.fst).filter
        (fun x => decide (x ∉ ((cluster_by_hamming items t bits).take k).flatten))).head?) := by
  refine ⟨clusterOuter_nonempty t bits items [], clusterOuter_flatten_nodup t bits items [] hnd,
    ?_, ?_⟩
  · intro x
    rw [cluster_by_hamming, clusterOuter_flatten_mem t bits items [] x]
    simp
  · intro k c hk
    have h := clusterOuter_seed t bits items [] k c hk
    simpa using h

/-- Witness for C10 at the counterexample's items (ids 1, 2, 3 distinct). -/
theorem cluster_by_hamming_partition_witness :
    (cluster_by_hamming [(1, ['0']), (2, ['3']), (3, ['7'])] 5 64).flatten.Nodup :=
  (cluster_by_hamming_partition [(1, ['0']), (2, ['3']), (3, ['7'])] 5 64 (by decide)).2.1
